import Mathlib

set_option autoImplicit false

namespace VolAnalysis

/-- A point in time, abstracted as a linearized calendar month number
together with an offset inside that month (offset 0 is the month's first
instant, which is what the date `dt.date(d.year, d.month, 1)` denotes once
converted to a timestamp). The lexicographic order below matches the
chronological order of the real timestamps. -/
structure Timestamp where
  month : ℕ
  off : ℕ
  deriving DecidableEq

/-- Chronological order on timestamps, as a Boolean. -/
def Timestamp.leb (a b : Timestamp) : Bool :=
  decide (a.month < b.month ∨ (a.month = b.month ∧ a.off ≤ b.off))

/-- A return series: the rows of the input DataFrame, each a timestamp
paired with the value of the Returns column. -/
abbrev Series := List (Timestamp × ℚ)

/-- Pandas label slicing `df[a : b]` on a sorted DatetimeIndex: keeps every
row whose timestamp lies in the closed interval from `a` to `b`, both
endpoints inclusive. -/
def slice (df : Series) (a b : Timestamp) : Series :=
  df.filter (fun p => a.leb p.1 && p.1.leb b)

/-- Insertion into an ascending list, keeping it ascending. -/
def insertAsc (x : ℕ) : List ℕ → List ℕ
  | [] => [x]
  | y :: ys => if x ≤ y then x :: y :: ys else y :: insertAsc x ys

/-- Insertion sort, ascending; models Python's `sorted`. -/
def sortAsc (l : List ℕ) : List ℕ := l.foldr insertAsc []

/-- `sorted(set(dt.date(d.year, d.month, 1) for d in df.index))`, with each
first-of-month date identified with its linearized month number. -/
def monthsOf (df : Series) : List ℕ :=
  sortAsc (df.map (fun p => p.1.month)).dedup

/-- The first instant of calendar month `m`: the timestamp the date
`dt.date(year, month, 1)` converts to. -/
def monthStart (m : ℕ) : Timestamp := ⟨m, 0⟩

/-- `np.mean` over rationals: sum divided by length. On the empty list this
is division by zero, which in `ℚ` yields 0; it stands in for the NaN that
`np.mean([])` produces. -/
def meanQ (l : List ℚ) : ℚ := l.sum / (l.length : ℚ)

/-- The (train_df, test_df) slice pairs generated for one candidate length:
one pair per `(index, train_start) in enumerate(months[:-length])`, with
`train_end = months[index + length]`, `test_start = train_end` and
`test_end = test_start + relativedelta(months=1)`. -/
def pairsForLength (df : Series) (months : List ℕ) (len : ℕ) :
    List (Series × Series) :=
  (months.take (months.length - len)).enum.map (fun q =>
    let train_end := months.getD (q.1 + len) 0
    (slice df (monthStart q.2) (monthStart train_end),
     slice df (monthStart train_end) (monthStart (train_end + 1))))

/-- Every trial the nested loops of `get_best_sample_size` generate, in
generation order: the outer loop is `for length in range(1, len(months))`,
the inner loop runs over the starting months. Each entry is
(candidate length, train_df, test_df). -/
def trialPairs (df : Series) : List (ℕ × Series × Series) :=
  (List.range' 1 ((monthsOf df).length - 1)).flatMap (fun len =>
    (pairsForLength df (monthsOf df) len).map (fun p => (len, p.1, p.2)))

/-- Effectful map over a list in the `Except` monad: stops at the first
error, mirroring a Python loop aborted by an uncaught exception. -/
def exceptMapM {ε α β : Type} (g : α → Except ε β) : List α → Except ε (List β)
  | [] => .ok []
  | a :: as =>
    match g a with
    | .error e => .error e
    | .ok b =>
      match exceptMapM g as with
      | .error e => .error e
      | .ok bs => .ok (b :: bs)

/-- The `errors` accumulator built by the nested loops of
`get_best_sample_size`: one key per candidate length in the order the loop
first touches them (1, 2, ...), each carrying the list of that length's
per-trial errors in trial order. A failing trial aborts the whole
computation with its exception, exactly as an uncaught Python exception
would. -/
def runDict {ε : Type} (trial : Series → Series → Except ε ℚ) (df : Series) :
    Except ε (List (ℕ × List ℚ)) :=
  exceptMapM (fun len =>
      match exceptMapM (fun p => trial p.1 p.2)
          (pairsForLength df (monthsOf df) len) with
      | .error e => .error e
      | .ok es => .ok (len, es))
    (List.range' 1 ((monthsOf df).length - 1))

/-- Reading `errors[k]`: the list stored at key `k`, `[]` when absent (the
defaultdict default). -/
def dictGet (d : List (ℕ × List ℚ)) (k : ℕ) : List ℚ :=
  match d.find? (fun p => decide (p.1 = k)) with
  | some p => p.2
  | none => []

/-- Reading `errors[k]` on a `defaultdict(list)` also inserts the key with
an empty list when it was absent. -/
def dictTouch (d : List (ℕ × List ℚ)) (k : ℕ) : List (ℕ × List ℚ) :=
  if d.any (fun p => decide (p.1 = k)) then d else d ++ [(k, [])]

/-- One step of the selection scan: replace the running best only on a
strictly smaller mean. -/
def bestStep (best : ℕ × ℚ) (p : ℕ × List ℚ) : ℕ × ℚ :=
  if meanQ p.2 < best.2 then (p.1, meanQ p.2) else best

/-- `sample_size, min_error = 1, np.mean(errors[1])` followed by the scan
over `errors.items()` (insertion order) that replaces the best only on a
strictly smaller mean. Evaluating `errors[1]` first also inserts key 1 into
the defaultdict when it was absent. -/
def selectBest (errors : List (ℕ × List ℚ)) : ℕ × ℚ :=
  (dictTouch errors 1).foldl bestStep (1, meanQ (dictGet errors 1))

/-- `ErrorEstimator.get_best_sample_size`. The `trial` argument abstracts
`_get_estimated_errors` together with the model and estimator collaborators
it calls; `min_sample_size` is the configured threshold imported from the
`utilities` module (modelled from the spec: an arbitrary configured integer
gate, its concrete value living outside the sources at hand). -/
def get_best_sample_size {ε : Type} (trial : Series → Series → Except ε ℚ)
    (min_sample_size : ℕ) (df : Series) : Except ε (ℕ × ℚ) :=
  if df.length ≤ min_sample_size then .ok (df.length, 0)
  else
    match runDict trial df with
    | .error e => .error e
    | .ok errors => .ok (selectBest errors)

/-- The fitted parameters a volatility model returns: at minimum the
in-sample conditional-volatility sequence aligned to the training window. -/
structure FittedParams where
  conditional_volatility : List ℚ

/-- `pd.merge(left, right, left_index=True, right_index=True)` with the
default inner join: each left row pairs with every right row carrying the
same timestamp; unmatched rows on either side are dropped. -/
def mergeInner (left right : List (Timestamp × ℚ)) :
    List (Timestamp × ℚ × ℚ) :=
  left.flatMap (fun l =>
    (right.filter (fun r => decide (r.1 = l.1))).map (fun r => (l.1, l.2, r.2)))

/-- The realized-volatility value a series assigns to a timestamp: the
first matching row's value, 0 when none matches. -/
def lookupVol (rv : List (Timestamp × ℚ)) (t : Timestamp) : ℚ :=
  match rv.find? (fun r => decide (r.1 = t)) with
  | some r => r.2
  | none => 0

/-- `ErrorEstimator._get_estimated_errors`, with the collaborators
abstracted: `train_model` may raise a training error, `vol_forecast`
produces the forecast sequence for the requested horizon, and
`get_realized_vol` may raise a sizing error. `pd.concat` is append;
assigning `pd.Series(cond_vols, index=df.index)` demands exactly one value
per row (pandas raises a ValueError otherwise, modelled by the `mismatch`
error); the merge is an inner join on the timestamp, and the trial error is
the sum of the squared differences over the joined rows. -/
def get_estimated_errors {ε : Type}
    (train_model : Series → Except ε FittedParams)
    (vol_forecast : FittedParams → ℕ → List ℚ)
    (get_realized_vol : Series → ℕ → Except ε (List (Timestamp × ℚ)))
    (mismatch : ε) (train_df test_df : Series) : Except ε ℚ :=
  match train_model train_df with
  | .error e => .error e
  | .ok param =>
    let predictions := vol_forecast param test_df.length
    let df := train_df ++ test_df
    let cond_vols := param.conditional_volatility ++ predictions
    if cond_vols.length = df.length then
      match get_realized_vol df train_df.length with
      | .error e => .error e
      | .ok real_vol =>
        .ok (((mergeInner ((df.map (fun p => p.1)).zip cond_vols) real_vol).map
          (fun r => (r.2.1 - r.2.2) ^ 2)).sum)
    else .error mismatch

/-- Modelled from the spec: `VolatilityModelsMap.CloseToClose`, the string
constant from the absent `utilities` module naming the only supported
realized-volatility model type; the spec fixes the recognized model type as
close-to-close. -/
def VolatilityModelsMap.CloseToClose : String := "close-to-close"

/-- The state a successfully constructed `VolatilityEstimator` holds. -/
structure VolatilityEstimator where
  model_type : String
  cleanFlag : Bool
  frequency : String

/-- Python's `str.lower()`: per-character ASCII lowering. (Lean's built-in
`String.toLower` is the same character map, but phrased through an internal
recursion that the kernel cannot evaluate; this list-based form computes.) -/
def strLower (s : String) : String := ⟨s.data.map Char.toLower⟩

/-- `VolatilityEstimator.__init__`: rejects a missing or empty model type,
lower-cases it, and rejects any model type outside the supported list. -/
def VolatilityEstimator.init (model_type : Option String) (cleanFlag : Bool)
    (frequency : String) : Except String VolatilityEstimator :=
  match model_type with
  | none => .error "Model type required"
  | some s =>
    if s = "" then .error "Model type required"
    else
      if strLower s ∈ [VolatilityModelsMap.CloseToClose] then
        .ok ⟨strLower s, cleanFlag, frequency⟩
      else .error "Acceptable realized_volatility model is required"

/-- `VolatilityEstimator.get_realized_vol`. The close-to-close computation
itself (`CloseToCloseModel.get_estimator`, defined in the absent `models`
module) is abstracted as the `close_to_close` argument; when the model type
matches no known model the Python body falls through and returns `None`,
modelled as `Option.none`. Raises the sizing ValueError when the series is
not strictly longer than the window. -/
def VolatilityEstimator.get_realized_vol (v : VolatilityEstimator)
    (close_to_close : Series → ℕ → Bool → List (Timestamp × ℚ))
    (df : Series) (window : ℕ) : Except String (Option (List (Timestamp × ℚ))) :=
  if df.length ≤ window then
    .error "Dataset is too small compared to rolling windows"
  else
    if v.model_type = VolatilityModelsMap.CloseToClose then
      .ok (some (close_to_close df window v.cleanFlag))
    else .ok none

/-- `DataAnalyzer.get_residuals`: from the Returns column, the residual
column (return minus the mean of all returns), the absolute-residual column
and the squared-residual column, in that order. -/
def get_residuals (returns : List ℚ) : List ℚ × List ℚ × List ℚ :=
  let residuals := returns.map (fun r => r - meanQ returns)
  (residuals, residuals.map (fun x => |x|), residuals.map (fun x => x ^ 2))

/-- A two-month example series with no observation at a month boundary. -/
def wSeries : Series := [(⟨0, 1⟩, 1), (⟨1, 1⟩, 2)]

/-- A two-month example series whose second observation sits exactly at the
first instant of its month (for daily data, pandas stamps every row at
midnight, so first-of-month rows look exactly like this). -/
def ovSeries : Series := [(⟨0, 1⟩, 1), (⟨1, 0⟩, 2)]

/-- A three-month example series. -/
def triSeries : Series := [(⟨0, 1⟩, 1), (⟨1, 1⟩, 2), (⟨2, 1⟩, 3)]

/-- A two-observation example series living inside a single calendar month. -/
def monoSeries : Series := [(⟨5, 0⟩, 1), (⟨5, 1⟩, 2)]

/-- Example model collaborator: in-sample conditional volatility 1 per row. -/
def cwModel (tr : Series) : Except Unit FittedParams :=
  .ok ⟨tr.map (fun _ => 1)⟩

/-- Example forecast collaborator: forecasts volatility 2 for each step. -/
def cwForecast (_ : FittedParams) (h : ℕ) : List ℚ := List.replicate h 2

/-- Example realized-volatility collaborator: volatility 3 at every row. -/
def cwRealized (df : Series) (_ : ℕ) : Except Unit (List (Timestamp × ℚ)) :=
  .ok (df.map (fun p => (p.1, 3)))

/-- Example one-row training window. -/
def cwTrain : Series := [(⟨0, 1⟩, 5)]

/-- Example one-row testing window. -/
def cwTest : Series := [(⟨1, 1⟩, 6)]

/-- The realized-volatility series `cwRealized` produces on
`cwTrain ++ cwTest`. -/
def cwRV : List (Timestamp × ℚ) := [(⟨0, 1⟩, 3), (⟨1, 1⟩, 3)]

lemma Timestamp.leb_antisymm {a b : Timestamp} (h1 : a.leb b = true)
    (h2 : b.leb a = true) : a = b := by
  cases a with
  | mk am ao =>
    cases b with
    | mk bm bo =>
      simp only [Timestamp.leb, decide_eq_true_eq] at h1 h2
      have hm : am = bm := by omega
      have ho : ao = bo := by omega
      rw [hm, ho]

lemma length_pairsForLength (df : Series) (months : List ℕ) (len : ℕ) :
    (pairsForLength df months len).length = months.length - len := by
  simp [pairsForLength]

lemma filter_key_flatMap_nil (F : ℕ → List (ℕ × Series × Series))
    (hF : ∀ L t, t ∈ F L → t.1 = L) :
    ∀ (ls : List ℕ) (L : ℕ), L ∉ ls →
      (ls.flatMap F).filter (fun t => decide (t.1 = L)) = [] := by
  intro ls
  induction ls with
  | nil => intro L _; rfl
  | cons x xs ih =>
    intro L hL
    have hx : L ≠ x := fun h => hL (h ▸ List.mem_cons_self x xs)
    have hxs : L ∉ xs := fun h => hL (List.mem_cons_of_mem x h)
    rw [List.flatMap_cons, List.filter_append, ih L hxs, List.append_nil]
    apply List.filter_eq_nil_iff.mpr
    intro t ht
    simp only [decide_eq_true_eq]
    rw [hF x t ht]
    exact fun h => hx h.symm

lemma filter_key_flatMap (F : ℕ → List (ℕ × Series × Series))
    (hF : ∀ L t, t ∈ F L → t.1 = L) :
    ∀ (ls : List ℕ) (L : ℕ), ls.Nodup → L ∈ ls →
      ((ls.flatMap F).filter (fun t => decide (t.1 = L))).length = (F L).length := by
  intro ls
  induction ls with
  | nil => intro L _ h; exact absurd h (List.not_mem_nil L)
  | cons x xs ih =>
    intro L hnd hL
    rw [List.flatMap_cons, List.filter_append, List.length_append]
    rcases List.mem_cons.mp hL with h | h
    · subst h
      have hnot : L ∉ xs := (List.nodup_cons.mp hnd).1
      rw [filter_key_flatMap_nil F hF xs L hnot]
      have hself : (F L).filter (fun t => decide (t.1 = L)) = F L := by
        apply List.filter_eq_self.mpr
        intro t ht
        simp only [decide_eq_true_eq]
        exact hF L t ht
      rw [hself]
      rfl
    · have hx : L ≠ x := by
        rintro rfl
        exact (List.nodup_cons.mp hnd).1 h
      have hnil : (F x).filter (fun t => decide (t.1 = L)) = [] := by
        apply List.filter_eq_nil_iff.mpr
        intro t ht
        simp only [decide_eq_true_eq]
        rw [hF x t ht]
        exact fun hc => hx hc.symm
      rw [hnil, ih L (List.nodup_cons.mp hnd).2 h]
      simp

lemma sum_range'_desc_mul_two (K : ℕ) : ∀ (n s : ℕ), s + n = K →
    (((List.range' s n).map (fun L => K - L)).sum) * 2 = n * (n + 1) := by
  intro n
  induction n with
  | zero => intro s _; rfl
  | succ n ih =>
    intro s hs
    rw [List.range'_succ, List.map_cons, List.sum_cons, Nat.add_mul]
    rw [ih (s + 1) (by omega)]
    have hKs : K - s = n + 1 := by omega
    rw [hKs]
    ring

/-- C1: for every return series with at most the configured
minimum-sample-size observations, `get_best_sample_size` returns the pair
(series length, 0.0). The statement holds for every trial collaborator
`trial` — in particular for one that always raises — so the result cannot
depend on any invocation of the volatility model or the realized-volatility
estimator: none happens. -/
theorem get_best_sample_size_short_circuit {ε : Type}
    (trial : Series → Series → Except ε ℚ) (min_sample_size : ℕ) (df : Series)
    (h : df.length ≤ min_sample_size) :
    get_best_sample_size trial min_sample_size df = .ok (df.length, 0) := by
  simp [get_best_sample_size, h]

/-- Witness for C1: a two-observation series against threshold 5, with a
trial collaborator that would raise if it were ever consulted. -/
theorem get_best_sample_size_short_circuit_witness :
    wSeries.length ≤ 5 ∧
    get_best_sample_size (ε := Unit) (fun _ _ => .error ()) 5 wSeries =
      .ok (wSeries.length, 0) :=
  ⟨by decide, get_best_sample_size_short_circuit (fun _ _ => .error ()) 5 wSeries (by decide)⟩

/-- C2: for a series spanning exactly K distinct calendar months (K ≥ 2),
the candidate-length loop generates exactly K - L (train, test) trials for
each length L between 1 and K - 1, and K * (K - 1) / 2 trials in total. -/
theorem trial_counts (df : Series) (K : ℕ) (hK : (monthsOf df).length = K)
    (h2 : 2 ≤ K) :
    (∀ L, 1 ≤ L → L ≤ K - 1 →
      ((trialPairs df).filter (fun t => decide (t.1 = L))).length = K - L) ∧
    (trialPairs df).length = K * (K - 1) / 2 := by
  constructor
  · intro L hL1 hL2
    rw [trialPairs, hK]
    have hmem : L ∈ List.range' 1 (K - 1) := by
      rw [List.mem_range'_1]
      omega
    rw [filter_key_flatMap _ _ _ L (List.nodup_range' _ _) hmem]
    rw [List.length_map, length_pairsForLength df (monthsOf df) L, hK]
    intro L' t ht
    rcases List.mem_map.mp ht with ⟨p, _, hp⟩
    rw [← hp]
  · rw [trialPairs, hK, List.length_flatMap]
    simp only [Function.comp_def]
    have hmap : (List.range' 1 (K - 1)).map
        (fun len => ((pairsForLength df (monthsOf df) len).map
          (fun p => (len, p.1, p.2))).length) =
        (List.range' 1 (K - 1)).map (fun len => K - len) := by
      apply List.map_congr_left
      intro a _
      rw [List.length_map, length_pairsForLength df (monthsOf df) a, hK]
    rw [hmap]
    have hg := sum_range'_desc_mul_two K (K - 1) 1 (by omega)
    have h1 : K - 1 + 1 = K := by omega
    rw [h1] at hg
    rw [Nat.mul_comm K (K - 1)]
    omega

/-- Witness for C2: the three-month example series has 3 - 1 = 2 trials of
length 1 and 3 trials in total. -/
theorem trial_counts_witness :
    ((trialPairs triSeries).filter (fun t => decide (t.1 = 1))).length = 3 - 1 ∧
    (trialPairs triSeries).length = 3 * (3 - 1) / 2 :=
  ⟨(trial_counts triSeries 3 (by decide) (by decide)).1 1 (by decide) (by decide),
   (trial_counts triSeries 3 (by decide) (by decide)).2⟩

/-- C3 (amended): for every (train, test) pair the search generates, there
is a month m (the test month) such that any observation lying in BOTH
slices is stamped exactly at the first instant of m, and every observation
of the test slice lies between the first instant of m and the first instant
of m + 1, both inclusive. Pandas label slices are inclusive at both ends,
so the slices are adjacent and can share at most that single boundary
observation; in particular, when no observation is stamped exactly at a
month's first instant, train and test are disjoint and the test window is
exactly one calendar month. -/
theorem train_test_boundary (df : Series) (L : ℕ) (tr te : Series)
    (hmem : (L, tr, te) ∈ trialPairs df) :
    ∃ m : ℕ,
      (∀ x ∈ tr, x ∈ te → x.1 = monthStart m) ∧
      (∀ y ∈ te, (monthStart m).leb y.1 = true ∧ y.1.leb (monthStart (m + 1)) = true) := by
  rw [trialPairs] at hmem
  rcases List.mem_flatMap.mp hmem with ⟨len, _, hmem2⟩
  rcases List.mem_map.mp hmem2 with ⟨p, hp, hpe⟩
  rw [pairsForLength] at hp
  rcases List.mem_map.mp hp with ⟨q, _, hq⟩
  have htr : tr = slice df (monthStart q.2)
      (monthStart ((monthsOf df).getD (q.1 + len) 0)) := by
    have h1 : p.1 = slice df (monthStart q.2)
        (monthStart ((monthsOf df).getD (q.1 + len) 0)) := by rw [← hq]
    have h2 : tr = p.1 := by
      have := congrArg (fun t => t.2.1) hpe
      simpa using this.symm
    rw [h2, h1]
  have hte : te = slice df (monthStart ((monthsOf df).getD (q.1 + len) 0))
      (monthStart ((monthsOf df).getD (q.1 + len) 0 + 1)) := by
    have h1 : p.2 = slice df (monthStart ((monthsOf df).getD (q.1 + len) 0))
        (monthStart ((monthsOf df).getD (q.1 + len) 0 + 1)) := by rw [← hq]
    have h2 : te = p.2 := by
      have := congrArg (fun t => t.2.2) hpe
      simpa using this.symm
    rw [h2, h1]
  refine ⟨(monthsOf df).getD (q.1 + len) 0, ?_, ?_⟩
  · intro x hxtr hxte
    rw [htr] at hxtr
    rw [hte] at hxte
    have h1 := (List.mem_filter.mp hxtr).2
    have h2 := (List.mem_filter.mp hxte).2
    rw [Bool.and_eq_true] at h1 h2
    exact Timestamp.leb_antisymm h1.2 h2.1
  · intro y hyte
    rw [hte] at hyte
    have h2 := (List.mem_filter.mp hyte).2
    rw [Bool.and_eq_true] at h2
    exact h2

/-- Witness for the amended C3: the single pair generated for the
boundary-free two-month series `wSeries`. -/
theorem train_test_boundary_witness :
    ∃ m : ℕ,
      (∀ x ∈ ([(⟨0, 1⟩, (1 : ℚ))] : Series),
        x ∈ ([(⟨1, 1⟩, (2 : ℚ))] : Series) → x.1 = monthStart m) ∧
      (∀ y ∈ ([(⟨1, 1⟩, (2 : ℚ))] : Series),
        (monthStart m).leb y.1 = true ∧ y.1.leb (monthStart (m + 1)) = true) :=
  train_test_boundary wSeries 1 _ _ (by decide)

/-- Counterexample to C3 as stated: in `ovSeries` the second observation is
stamped exactly at the first instant of month 1 (as every row of daily,
midnight-stamped data is). Because pandas label slices include both
endpoints, the (train, test) pair generated for candidate length 1 contains
that observation in both slices, so the two windows are NOT disjoint; the
series is longer than threshold 1, so the search does generate this pair. -/
theorem train_test_overlap_counterexample :
    1 < ovSeries.length ∧
    ∃ p ∈ trialPairs ovSeries, ∃ x ∈ p.2.1, x ∈ p.2.2 := by decide

lemma dedup_const {l : List ℕ} {m0 : ℕ} (hne : l ≠ [])
    (hall : ∀ x ∈ l, x = m0) : l.dedup = [m0] := by
  induction l with
  | nil => exact absurd rfl hne
  | cons x xs ih =>
    have hx : x = m0 := hall x (List.mem_cons_self _ _)
    cases xs with
    | nil => rw [hx]; rfl
    | cons y ys =>
      have hxs : (y :: ys).dedup = [m0] :=
        ih (by simp) (fun z hz => hall z (List.mem_cons_of_mem _ hz))
      have hxy : x = y := by
        rw [hx, hall y (List.mem_cons_of_mem _ (List.mem_cons_self _ _))]
      have hxmem : x ∈ y :: ys := by rw [hxy]; exact List.mem_cons_self _ _
      rw [List.dedup_cons_of_mem hxmem, hxs]

lemma monthsOf_single {df : Series} {m0 : ℕ} (hne : df ≠ [])
    (hall : ∀ p ∈ df, p.1.month = m0) : monthsOf df = [m0] := by
  rw [monthsOf]
  have h1 : (df.map (fun p => p.1.month)).dedup = [m0] := by
    apply dedup_const
    · simpa using hne
    · intro x hx
      rcases List.mem_map.mp hx with ⟨p, hp, he⟩
      rw [← he]
      exact hall p hp
  rw [h1]
  rfl

/-- C10: a series longer than the minimum-sample-size threshold whose
timestamps all fall in one calendar month produces zero trials (the
candidate-length loop body never runs, whatever the collaborators are) and
`get_best_sample_size` returns (1, mean of an empty trial list) rather than
an error. In the floating-point original `np.mean([])` is NaN — not a valid
error value; here `meanQ []` is the division 0 / 0, written unevaluated. -/
theorem single_month_degenerate {ε : Type} (trial : Series → Series → Except ε ℚ)
    (min_sample_size : ℕ) (df : Series) (m0 : ℕ)
    (hlen : min_sample_size < df.length) (hall : ∀ p ∈ df, p.1.month = m0) :
    trialPairs df = [] ∧
    get_best_sample_size trial min_sample_size df = .ok (1, meanQ []) := by
  have hne : df ≠ [] := by
    intro h
    rw [h] at hlen
    simp at hlen
  have hm := monthsOf_single hne hall
  have hsel : selectBest [] = (1, meanQ []) := by
    rw [selectBest, dictTouch, dictGet]
    simp only [List.any_nil, Bool.false_eq_true, if_false, List.find?_nil,
      List.nil_append, List.foldl_cons, List.foldl_nil, bestStep]
    rw [if_neg (lt_irrefl _)]
  have hrd : runDict trial df = .ok [] := by
    rw [runDict, hm]
    rfl
  constructor
  · rw [trialPairs, hm]
    rfl
  · rw [get_best_sample_size, if_neg (by omega), hrd]
    show Except.ok (selectBest []) = Except.ok (1, meanQ [])
    rw [hsel]

/-- Witness for C10: a two-observation single-month series over threshold 1,
with a trial collaborator that would raise if it were ever consulted. -/
theorem single_month_degenerate_witness :
    trialPairs monoSeries = [] ∧
    get_best_sample_size (ε := Unit) (fun _ _ => .error ()) 1 monoSeries =
      .ok (1, meanQ []) :=
  single_month_degenerate (fun _ _ => .error ()) 1 monoSeries 5 (by decide) (by decide)

lemma exceptMapM_cons_ok {ε α β : Type} {g : α → Except ε β} {a : α}
    {as : List α} {bs : List β} (h : exceptMapM g (a :: as) = .ok bs) :
    ∃ b bs', bs = b :: bs' ∧ g a = .ok b ∧ exceptMapM g as = .ok bs' := by
  cases hga : g a with
  | error e => simp [exceptMapM, hga] at h
  | ok b =>
    cases has : exceptMapM g as with
    | error e => simp [exceptMapM, hga, has] at h
    | ok bs' =>
      simp only [exceptMapM, hga, has] at h
      exact ⟨b, bs', by simpa using h.symm, rfl, rfl⟩

lemma foldl_best_spec :
    ∀ (d : List (ℕ × List ℚ)) (b : ℕ × ℚ),
    (d.foldl bestStep b).2 ≤ b.2 ∧
    (∀ p ∈ d, (d.foldl bestStep b).2 ≤ meanQ p.2) ∧
    ((d.foldl bestStep b).2 = b.2 → d.foldl bestStep b = b) ∧
    (d.foldl bestStep b ≠ b →
      ∃ e, d.find? (fun p => decide (meanQ p.2 = (d.foldl bestStep b).2)) =
        some ((d.foldl bestStep b).1, e) ∧
        meanQ e = (d.foldl bestStep b).2) := by
  intro d
  induction d with
  | nil =>
    intro b
    exact ⟨le_refl _, by simp, fun _ => rfl, fun h => absurd rfl h⟩
  | cons p ds ih =>
    intro b
    rw [List.foldl_cons]
    by_cases hlt : meanQ p.2 < b.2
    · have hb' : bestStep b p = (p.1, meanQ p.2) := by rw [bestStep, if_pos hlt]
      rw [hb']
      obtain ⟨ih1, ih2, ih3, ih4⟩ := ih (p.1, meanQ p.2)
      have hrlt : (ds.foldl bestStep (p.1, meanQ p.2)).2 < b.2 :=
        lt_of_le_of_lt ih1 hlt
      refine ⟨le_of_lt hrlt, ?_, ?_, ?_⟩
      · intro q hq
        rcases List.mem_cons.mp hq with h | h
        · rw [h]
          exact ih1
        · exact ih2 q h
      · intro h
        exact absurd h (ne_of_lt hrlt)
      · intro _
        by_cases hrb : ds.foldl bestStep (p.1, meanQ p.2) = (p.1, meanQ p.2)
        · refine ⟨p.2, ?_, ?_⟩
          · rw [List.find?_cons_of_pos]
            · rw [hrb]
            · simp only [decide_eq_true_eq]
              rw [hrb]
          · rw [hrb]
        · rcases ih4 hrb with ⟨e, hfind, hme⟩
          refine ⟨e, ?_, hme⟩
          rw [List.find?_cons_of_neg, hfind]
          simp only [decide_eq_true_eq]
          intro hc
          exact hrb (ih3 hc.symm)
    · have hb' : bestStep b p = b := by rw [bestStep, if_neg hlt]
      rw [hb']
      obtain ⟨ih1, ih2, ih3, ih4⟩ := ih b
      have hble : b.2 ≤ meanQ p.2 := le_of_not_lt hlt
      refine ⟨ih1, ?_, ih3, ?_⟩
      · intro q hq
        rcases List.mem_cons.mp hq with h | h
        · rw [h]
          exact le_trans ih1 hble
        · exact ih2 q h
      · intro hrb
        rcases ih4 hrb with ⟨e, hfind, hme⟩
        refine ⟨e, ?_, hme⟩
        rw [List.find?_cons_of_neg, hfind]
        simp only [decide_eq_true_eq]
        intro hc
        have hr2 : (ds.foldl bestStep b).2 = b.2 :=
          le_antisymm ih1 (hc ▸ hble)
        exact hrb (ih3 hr2)

lemma runDict_shape {ε : Type} {trial : Series → Series → Except ε ℚ}
    {df : Series} {d : List (ℕ × List ℚ)}
    (h2 : 2 ≤ (monthsOf df).length) (hrun : runDict trial df = .ok d) :
    ∃ e1 rest, d = (1, e1) :: rest := by
  rw [runDict] at hrun
  have hsplit : (monthsOf df).length - 1 = ((monthsOf df).length - 2) + 1 := by
    omega
  rw [hsplit, List.range'_succ] at hrun
  rcases exceptMapM_cons_ok hrun with ⟨b, bs', hbs, hgb, _⟩
  cases hinner : exceptMapM (fun p => trial p.1 p.2)
      (pairsForLength df (monthsOf df) 1) with
  | error e => rw [hinner] at hgb; simp at hgb
  | ok es =>
    rw [hinner] at hgb
    simp only [] at hgb
    refine ⟨es, bs', ?_⟩
    rw [hbs]
    have hb : b = (1, es) := by
      have := hgb
      simp at this
      rw [this]
    rw [hb]

/-- C5: when the search runs (series over threshold, at least two months,
all trials succeed, the error dictionary being `d`), `get_best_sample_size`
returns `selectBest d`, whose reported error is a lower bound of every
candidate length's mean trial error, and whose selected length is the key
of the FIRST entry (in dictionary insertion order, starting from length 1,
whose mean initializes the scan) attaining that mean — so a later length
with an equal mean never replaces it, and the reported error is the
arithmetic mean `meanQ` of the selected length's own trial-error list. -/
theorem select_best_strict_min {ε : Type} (trial : Series → Series → Except ε ℚ)
    (min_sample_size : ℕ) (df : Series) (d : List (ℕ × List ℚ))
    (hlen : min_sample_size < df.length) (h2 : 2 ≤ (monthsOf df).length)
    (hrun : runDict trial df = .ok d) :
    get_best_sample_size trial min_sample_size df = .ok (selectBest d) ∧
    (∀ p ∈ d, (selectBest d).2 ≤ meanQ p.2) ∧
    (∃ e, d.find? (fun p => decide (meanQ p.2 = (selectBest d).2)) =
      some ((selectBest d).1, e) ∧ meanQ e = (selectBest d).2) := by
  rcases runDict_shape h2 hrun with ⟨e1, rest, hd⟩
  have htouch : dictTouch d 1 = d := by
    rw [hd, dictTouch]
    simp
  have hget : dictGet d 1 = e1 := by
    rw [hd, dictGet, List.find?_cons_of_pos _ (by simp)]
  have hsel : selectBest d = d.foldl bestStep (1, meanQ e1) := by
    rw [selectBest, htouch, hget]
  refine ⟨?_, ?_, ?_⟩
  · rw [get_best_sample_size, if_neg (by omega), hrun]
  · intro p hp
    rw [hsel]
    exact (foldl_best_spec d (1, meanQ e1)).2.1 p hp
  · rw [hsel]
    obtain ⟨h1, hall, h3, h4⟩ := foldl_best_spec d (1, meanQ e1)
    by_cases hrb : d.foldl bestStep (1, meanQ e1) = (1, meanQ e1)
    · rw [hrb]
      refine ⟨e1, ?_, rfl⟩
      rw [hd, List.find?_cons_of_pos _ (by simp)]
    · exact h4 hrb

/-- Witness for C5: the three-month example series with a trial
collaborator reporting the training-window row count; length 1 has trials
[1, 1] (mean 1), length 2 has [2] (mean 2), and the scan selects (1, 1). -/
theorem select_best_strict_min_witness :
    get_best_sample_size (ε := Unit) (fun tr _ => .ok tr.length) 1 triSeries =
      .ok (selectBest [(1, [1, 1]), (2, [2])]) ∧
    (∀ p ∈ [((1 : ℕ), [(1 : ℚ), 1]), (2, [2])],
      (selectBest [(1, [1, 1]), (2, [2])]).2 ≤ meanQ p.2) ∧
    (∃ e, [((1 : ℕ), [(1 : ℚ), 1]), (2, [2])].find?
        (fun p => decide (meanQ p.2 = (selectBest [(1, [1, 1]), (2, [2])]).2)) =
      some ((selectBest [(1, [1, 1]), (2, [2])]).1, e) ∧
      meanQ e = (selectBest [(1, [1, 1]), (2, [2])]).2) :=
  select_best_strict_min (fun tr _ => .ok tr.length) 1 triSeries
    [(1, [1, 1]), (2, [2])] (by decide) (by decide) (by rfl)

lemma exceptMapM_ok_of_all {ε α β : Type} {g : α → Except ε β} :
    ∀ {l : List α}, (∀ x ∈ l, ∃ b, g x = .ok b) →
      ∃ bs, exceptMapM g l = .ok bs := by
  intro l
  induction l with
  | nil => intro _; exact ⟨[], rfl⟩
  | cons a as ih =>
    intro h
    rcases h a (List.mem_cons_self _ _) with ⟨b, hb⟩
    rcases ih (fun x hx => h x (List.mem_cons_of_mem _ hx)) with ⟨bs, hbs⟩
    exact ⟨b :: bs, by simp [exceptMapM, hb, hbs]⟩

lemma exceptMapM_error_of_split {ε α β : Type} {g : α → Except ε β}
    {a : α} {e : ε} :
    ∀ {l1 : List α} (l2 : List α), (∀ x ∈ l1, ∃ b, g x = .ok b) →
      g a = .error e → exceptMapM g (l1 ++ a :: l2) = .error e := by
  intro l1
  induction l1 with
  | nil =>
    intro l2 _ hfail
    simp [exceptMapM, hfail]
  | cons x xs ih =>
    intro l2 hok hfail
    rcases hok x (List.mem_cons_self _ _) with ⟨b, hb⟩
    have hrec := ih l2 (fun y hy => hok y (List.mem_cons_of_mem _ hy)) hfail
    rw [List.cons_append]
    simp [exceptMapM, hb, hrec]

lemma runDict_error_of_flat_split {ε : Type}
    {trial : Series → Series → Except ε ℚ} {df : Series} {e : ε} :
    ∀ (ls : List ℕ) (l1 l2 : List (ℕ × Series × Series))
      (t0 : ℕ × Series × Series),
      ls.flatMap (fun len => (pairsForLength df (monthsOf df) len).map
        (fun p => (len, p.1, p.2))) = l1 ++ t0 :: l2 →
      (∀ x ∈ l1, ∃ v, trial x.2.1 x.2.2 = .ok v) →
      trial t0.2.1 t0.2.2 = .error e →
      exceptMapM (fun len =>
        match exceptMapM (fun p => trial p.1 p.2)
            (pairsForLength df (monthsOf df) len) with
        | .error e => .error e
        | .ok es => .ok (len, es)) ls = .error e := by
  intro ls
  induction ls with
  | nil =>
    intro l1 l2 t0 hsplit _ _
    simp at hsplit
  | cons L ls ih =>
    intro l1 l2 t0 hsplit hok hfail
    rw [List.flatMap_cons] at hsplit
    rcases List.append_eq_append_iff.mp hsplit with ⟨mid, hl1, hrest⟩ | ⟨mid, hFL, htail⟩
    · -- t0 lies in the flatMap of the remaining lengths
      have hokF : ∀ x ∈ (pairsForLength df (monthsOf df) L).map
          (fun p => (L, p.1, p.2)), ∃ v, trial x.2.1 x.2.2 = .ok v := by
        intro x hx
        exact hok x (hl1 ▸ List.mem_append_left _ hx)
      have hinner : ∃ es, exceptMapM (fun p => trial p.1 p.2)
          (pairsForLength df (monthsOf df) L) = .ok es := by
        apply exceptMapM_ok_of_all
        intro p hp
        have hx := hokF (L, p.1, p.2) (List.mem_map.mpr ⟨p, hp, rfl⟩)
        simpa using hx
      rcases hinner with ⟨es, hes⟩
      have hmidok : ∀ x ∈ mid, ∃ v, trial x.2.1 x.2.2 = .ok v := by
        intro x hx
        exact hok x (hl1 ▸ List.mem_append_right _ hx)
      have hrec := ih mid l2 t0 hrest hmidok hfail
      simp [exceptMapM, hes, hrec]
    · -- t0 lies inside the pairs generated for length L
      cases mid with
      | nil =>
        rw [List.append_nil] at hFL
        have hinner : ∃ es, exceptMapM (fun p => trial p.1 p.2)
            (pairsForLength df (monthsOf df) L) = .ok es := by
          apply exceptMapM_ok_of_all
          intro p hp
          have hx := hok (L, p.1, p.2) (hFL ▸ List.mem_map.mpr ⟨p, hp, rfl⟩)
          simpa using hx
        rcases hinner with ⟨es, hes⟩
        have hrec := ih [] l2 t0 (by simpa using htail.symm) (by simp) hfail
        simp [exceptMapM, hes, hrec]
      | cons m0 mid' =>
        rw [List.cons_append] at htail
        injection htail with htail1 htail2
        subst htail1
        rw [List.map_eq_append_iff] at hFL
        rcases hFL with ⟨pl1, prest, hpairs, hmap1, hmap2⟩
        rw [List.map_eq_cons_iff] at hmap2
        rcases hmap2 with ⟨p0, ptail, hprest, hp0, hmapt⟩
        have hinner : exceptMapM (fun p => trial p.1 p.2)
            (pairsForLength df (monthsOf df) L) = .error e := by
          rw [hpairs, hprest]
          apply exceptMapM_error_of_split
          · intro x hx
            have hxl1 : (L, x.1, x.2) ∈ l1 := by
              rw [← hmap1]
              exact List.mem_map.mpr ⟨x, hx, rfl⟩
            rcases hok _ hxl1 with ⟨v, hv⟩
            exact ⟨v, hv⟩
          · have hfp : trial (L, p0.1, p0.2).2.1 (L, p0.1, p0.2).2.2 =
                .error e := by
              rw [hp0]
              exact hfail
            exact hfp
        simp [exceptMapM, hinner]

/-- C8: if a generated trial fails — its collaborator call returns an
exception — while every trial generated before it succeeds, then
`get_best_sample_size` returns exactly that exception: the failure is not
caught, no partial or degenerate result is produced, and the whole search
aborts at the first failing trial. -/
theorem trial_failure_propagates {ε : Type}
    (trial : Series → Series → Except ε ℚ) (min_sample_size : ℕ) (df : Series)
    (l1 l2 : List (ℕ × Series × Series)) (t0 : ℕ × Series × Series) (e : ε)
    (hlen : min_sample_size < df.length)
    (hsplit : trialPairs df = l1 ++ t0 :: l2)
    (hok : ∀ x ∈ l1, ∃ v, trial x.2.1 x.2.2 = .ok v)
    (hfail : trial t0.2.1 t0.2.2 = .error e) :
    get_best_sample_size trial min_sample_size df = .error e := by
  have hrd : runDict trial df = .error e := by
    rw [runDict]
    exact runDict_error_of_flat_split _ l1 l2 t0 (by rw [← trialPairs, hsplit])
      hok hfail
  rw [get_best_sample_size, if_neg (by omega), hrd]

/-- Witness for C8: a two-month series over threshold 1 whose single
generated trial raises; the search returns that very exception. -/
theorem trial_failure_propagates_witness :
    get_best_sample_size (ε := Unit) (fun _ _ => .error ()) 1 wSeries =
      .error () :=
  trial_failure_propagates (fun _ _ => .error ()) 1 wSeries []
    [] (1, [(⟨0, 1⟩, 1)], [(⟨1, 1⟩, 2)]) () (by decide) (by decide)
    (by simp) rfl

lemma filter_key_eq_find_toList :
    ∀ {rv : List (Timestamp × ℚ)}, (rv.map Prod.fst).Nodup → ∀ (t : Timestamp),
      rv.filter (fun r => decide (r.1 = t)) =
        (rv.find? (fun r => decide (r.1 = t))).toList := by
  intro rv
  induction rv with
  | nil => intro _ t; rfl
  | cons r rs ih =>
    intro hnd t
    rw [List.map_cons] at hnd
    have hnd' := List.nodup_cons.mp hnd
    by_cases hr : r.1 = t
    · rw [List.filter_cons_of_pos (by simp [hr]),
        List.find?_cons_of_pos _ (by simp [hr])]
      have hfil : rs.filter (fun x => decide (x.1 = t)) = [] := by
        apply List.filter_eq_nil_iff.mpr
        intro x hx
        simp only [decide_eq_true_eq]
        intro hc
        exact hnd'.1 (hr ▸ hc ▸ List.mem_map.mpr ⟨x, hx, rfl⟩)
      rw [hfil]
      rfl
    · rw [List.filter_cons_of_neg (by simp [hr]),
        List.find?_cons_of_neg _ (by simp [hr])]
      exact ih hnd'.2 t

lemma mergeInner_sum_eq {rv : List (Timestamp × ℚ)}
    (hnd : (rv.map Prod.fst).Nodup) :
    ∀ (left : List (Timestamp × ℚ)),
      ((mergeInner left rv).map (fun r => (r.2.1 - r.2.2) ^ 2)).sum =
      ((left.filter (fun p => rv.any (fun r => decide (r.1 = p.1)))).map
        (fun p => (p.2 - lookupVol rv p.1) ^ 2)).sum := by
  intro left
  induction left with
  | nil => rfl
  | cons l ls ih =>
    rw [mergeInner, List.flatMap_cons, List.map_append, List.sum_append]
    have htail : ((ls.flatMap (fun x =>
        (rv.filter (fun r => decide (r.1 = x.1))).map
          (fun r => (x.1, x.2, r.2)))).map (fun r => (r.2.1 - r.2.2) ^ 2)).sum =
        ((ls.filter (fun p => rv.any (fun r => decide (r.1 = p.1)))).map
          (fun p => (p.2 - lookupVol rv p.1) ^ 2)).sum := ih
    rw [htail, filter_key_eq_find_toList hnd l.1]
    cases hfind : rv.find? (fun r => decide (r.1 = l.1)) with
    | none =>
      have hany : rv.any (fun r => decide (r.1 = l.1)) = false := by
        rw [List.any_eq_false]
        intro x hx
        have hno := List.find?_eq_none.mp hfind x hx
        simp only [decide_eq_true_eq] at hno ⊢
        exact hno
      rw [List.filter_cons_of_neg (by simp [hany])]
      simp
    | some r0 =>
      have hpred := List.find?_some hfind
      have hmem := List.mem_of_find?_eq_some hfind
      have hany : rv.any (fun r => decide (r.1 = l.1)) = true :=
        List.any_eq_true.mpr ⟨r0, hmem, hpred⟩
      rw [List.filter_cons_of_pos (by simp [hany])]
      have hlook : lookupVol rv l.1 = r0.2 := by
        rw [lookupVol, hfind]
      rw [List.map_cons, List.sum_cons, hlook]
      simp

/-- C4: whenever the model and the realized-volatility estimator both
succeed on a (train, test) pair (and the conditional-volatility sequence
lines up with the combined frame, as pandas enforces), the trial error
`_get_estimated_errors` reports equals the sum, over exactly those rows of
the combined frame whose timestamp also occurs in the realized-volatility
series (inner join; unmatched rows dropped, not imputed), of the squared
difference between conditional and realized volatility — and it is a
non-negative number. The no-duplicate-timestamps hypothesis on the
realized-volatility output lets the join be read as a per-row lookup. -/
theorem trial_error_inner_join {ε : Type}
    (train_model : Series → Except ε FittedParams)
    (vol_forecast : FittedParams → ℕ → List ℚ)
    (grv : Series → ℕ → Except ε (List (Timestamp × ℚ)))
    (mismatch : ε) (train_df test_df : Series) (param : FittedParams)
    (rv : List (Timestamp × ℚ)) (E : ℚ)
    (htm : train_model train_df = .ok param)
    (hrv : grv (train_df ++ test_df) train_df.length = .ok rv)
    (hnd : (rv.map Prod.fst).Nodup)
    (hE : get_estimated_errors train_model vol_forecast grv mismatch
      train_df test_df = .ok E) :
    0 ≤ E ∧
    E = (((((train_df ++ test_df).map (fun p => p.1)).zip
          (param.conditional_volatility ++ vol_forecast param test_df.length)).filter
            (fun p => rv.any (fun r => decide (r.1 = p.1)))).map
          (fun p => (p.2 - lookupVol rv p.1) ^ 2)).sum := by
  rw [get_estimated_errors, htm] at hE
  simp only [] at hE
  by_cases hlen : (param.conditional_volatility ++
      vol_forecast param test_df.length).length =
      (train_df ++ test_df).length
  · rw [if_pos hlen, hrv] at hE
    have hEeq : E = ((mergeInner
        (((train_df ++ test_df).map (fun p => p.1)).zip
          (param.conditional_volatility ++ vol_forecast param test_df.length))
        rv).map (fun r => (r.2.1 - r.2.2) ^ 2)).sum := by
      have := hE
      simp only [Except.ok.injEq] at this
      exact this.symm
    constructor
    · rw [hEeq]
      apply List.sum_nonneg
      intro x hx
      rcases List.mem_map.mp hx with ⟨r, _, hr⟩
      rw [← hr]
      exact sq_nonneg _
    · rw [hEeq, mergeInner_sum_eq hnd]
  · rw [if_neg hlen] at hE
    exact absurd hE (by simp)

/-- Witness for C4: one training row, one testing row, a model reporting
conditional volatility 1 in sample and forecasting 2, and a realized
volatility of 3 everywhere: the reported error is (1-3)^2 + (2-3)^2 = 5. -/
theorem trial_error_inner_join_witness :
    0 ≤ (5 : ℚ) ∧
    (5 : ℚ) = (((((cwTrain ++ cwTest).map (fun p => p.1)).zip
          ((FittedParams.mk (cwTrain.map (fun _ => (1 : ℚ)))).conditional_volatility ++
            cwForecast (FittedParams.mk (cwTrain.map (fun _ => (1 : ℚ)))) cwTest.length)).filter
            (fun p => cwRV.any (fun r => decide (r.1 = p.1)))).map
          (fun p => (p.2 - lookupVol cwRV p.1) ^ 2)).sum :=
  trial_error_inner_join cwModel cwForecast cwRealized () cwTrain cwTest
    ⟨cwTrain.map (fun _ => 1)⟩ cwRV 5 rfl rfl (by decide)
    (by simp [get_estimated_errors, cwModel, cwForecast, cwRealized, cwTrain,
      cwTest, mergeInner, lookupVol]; norm_num)

/-- C6: constructing a `VolatilityEstimator` raises a configuration error
exactly when the model type is missing (None), the empty string, or any
string whose case-insensitive normalization is not the supported
close-to-close model; construction with close-to-close in any letter case
succeeds, storing the lower-cased model type. -/
theorem init_config_error (model_type : Option String) (cleanFlag : Bool)
    (frequency : String) :
    ((∃ e, VolatilityEstimator.init model_type cleanFlag frequency = .error e) ↔
      (model_type = none ∨ model_type = some "" ∨
        ∃ s, model_type = some s ∧
          strLower s ≠ VolatilityModelsMap.CloseToClose)) ∧
    (∀ s, model_type = some s →
      strLower s = VolatilityModelsMap.CloseToClose →
      VolatilityEstimator.init model_type cleanFlag frequency =
        .ok ⟨VolatilityModelsMap.CloseToClose, cleanFlag, frequency⟩) := by
  cases model_type with
  | none =>
    refine ⟨⟨fun _ => Or.inl rfl, fun _ => ⟨"Model type required", rfl⟩⟩, ?_⟩
    intro s hs
    exact absurd hs (by simp)
  | some s =>
    by_cases hs : s = ""
    · subst hs
      refine ⟨⟨fun _ => Or.inr (Or.inl rfl),
        fun _ => ⟨"Model type required", rfl⟩⟩, ?_⟩
      intro s' hs' hlow
      have : s' = "" := by simpa using hs'.symm
      rw [this] at hlow
      exact absurd hlow (by decide)
    · by_cases hl : strLower s = VolatilityModelsMap.CloseToClose
      · constructor
        · constructor
          · intro he
            rcases he with ⟨e, he⟩
            rw [VolatilityEstimator.init] at he
            rw [if_neg hs, if_pos (by simp [hl])] at he
            exact absurd he (by simp)
          · intro hor
            rcases hor with h | h | ⟨s', hs', hlow⟩
            · exact absurd h (by simp)
            · have : s = "" := by simpa using h
              exact absurd this hs
            · have : s' = s := by simpa using hs'.symm
              rw [this] at hlow
              exact absurd hl hlow
        · intro s' hs' hlow
          have hss : s' = s := by simpa using hs'.symm
          rw [VolatilityEstimator.init, if_neg hs, if_pos (by simp [hl])]
          rw [hl]
      · constructor
        · constructor
          · intro _
            exact Or.inr (Or.inr ⟨s, rfl, hl⟩)
          · intro _
            refine ⟨"Acceptable realized_volatility model is required", ?_⟩
            rw [VolatilityEstimator.init, if_neg hs, if_neg (by simp [hl])]
        · intro s' hs' hlow
          have hss : s' = s := by simpa using hs'.symm
          rw [hss] at hlow
          exact absurd hlow hl

/-- Witness for C6: construction succeeds on "Close-To-Close" (mixed case)
and fails on "garch". -/
theorem init_config_error_witness :
    VolatilityEstimator.init (some "Close-To-Close") true "D" =
      .ok ⟨VolatilityModelsMap.CloseToClose, true, "D"⟩ ∧
    (∃ e, VolatilityEstimator.init (some "garch") true "D" = .error e) :=
  ⟨(init_config_error (some "Close-To-Close") true "D").2 "Close-To-Close"
      rfl (by decide),
   (init_config_error (some "garch") true "D").1.mpr
      (Or.inr (Or.inr ⟨"garch", rfl, by decide⟩))⟩

/-- C7: `get_realized_vol` raises the sizing ValueError exactly when the
series is not strictly longer than the split index; on a strictly longer
series, an estimator that was successfully constructed proceeds to the
close-to-close estimator and returns its output instead of raising. -/
theorem get_realized_vol_sizing (v : VolatilityEstimator)
    (close_to_close : Series → ℕ → Bool → List (Timestamp × ℚ))
    (df : Series) (window : ℕ) :
    ((∃ e, v.get_realized_vol close_to_close df window = .error e) ↔
      df.length ≤ window) ∧
    (∀ model_type cleanFlag frequency,
      VolatilityEstimator.init model_type cleanFlag frequency = .ok v →
      window < df.length →
      v.get_realized_vol close_to_close df window =
        .ok (some (close_to_close df window v.cleanFlag))) := by
  constructor
  · by_cases hlen : df.length ≤ window
    · refine ⟨fun _ => hlen, fun _ => ?_⟩
      refine ⟨"Dataset is too small compared to rolling windows", ?_⟩
      rw [VolatilityEstimator.get_realized_vol, if_pos hlen]
    · refine ⟨?_, fun h => absurd h hlen⟩
      intro he
      rcases he with ⟨e, he⟩
      rw [VolatilityEstimator.get_realized_vol, if_neg hlen] at he
      by_cases hmt : v.model_type = VolatilityModelsMap.CloseToClose
      · rw [if_pos hmt] at he
        exact absurd he (by simp)
      · rw [if_neg hmt] at he
        exact absurd he (by simp)
  · intro model_type cleanFlag frequency hinit hlen
    have hmt : v.model_type = VolatilityModelsMap.CloseToClose := by
      cases model_type with
      | none => exact absurd hinit (by simp [VolatilityEstimator.init])
      | some s =>
        by_cases hs : s = ""
        · subst hs
          exact absurd hinit (by simp [VolatilityEstimator.init])
        · rw [VolatilityEstimator.init, if_neg hs] at hinit
          by_cases hl : strLower s ∈ [VolatilityModelsMap.CloseToClose]
          · rw [if_pos hl] at hinit
            have hv : v = ⟨strLower s, cleanFlag, frequency⟩ := by
              simpa using hinit.symm
            rw [hv]
            simpa using hl
          · rw [if_neg hl] at hinit
            exact absurd hinit (by simp)
    rw [VolatilityEstimator.get_realized_vol, if_neg (by omega), if_pos hmt]

/-- Witness for C7: a successfully constructed estimator on a two-row
series with split index 1 returns the estimator output. -/
theorem get_realized_vol_sizing_witness :
    VolatilityEstimator.get_realized_vol
      ⟨VolatilityModelsMap.CloseToClose, true, "D"⟩ (fun _ _ _ => [])
      wSeries 1 = .ok (some []) :=
  (get_realized_vol_sizing ⟨VolatilityModelsMap.CloseToClose, true, "D"⟩
      (fun _ _ _ => []) wSeries 1).2
    (some "close-to-close") true "D" (by rfl) (by decide)

/-- C9: `get_residuals` produces, row for row, the residual (return minus
the mean of all returns), its absolute value and its square, preserving the
series length in each derived column. -/
theorem get_residuals_rowwise (returns : List ℚ) (i : ℕ)
    (hi : i < returns.length) :
    (get_residuals returns).1.getD i 0 = returns.getD i 0 - meanQ returns ∧
    (get_residuals returns).2.1.getD i 0 =
      |returns.getD i 0 - meanQ returns| ∧
    (get_residuals returns).2.2.getD i 0 =
      (returns.getD i 0 - meanQ returns) ^ 2 ∧
    (get_residuals returns).1.length = returns.length ∧
    (get_residuals returns).2.1.length = returns.length ∧
    (get_residuals returns).2.2.length = returns.length := by
  have hsome : returns[i]? = some returns[i] := List.getElem?_eq_getElem hi
  refine ⟨?_, ?_, ?_, by simp [get_residuals], by simp [get_residuals],
    by simp [get_residuals]⟩ <;>
    simp [get_residuals, List.getD, List.getElem?_map, hsome]

/-- Witness for C9: the series [2, 4] has mean 3; at row 0 the residual is
-1, the absolute residual 1 and the squared residual 1. -/
theorem get_residuals_rowwise_witness :
    (get_residuals [2, 4]).1.getD 0 0 = ([(2 : ℚ), 4].getD 0 0 - meanQ [2, 4]) ∧
    (get_residuals [2, 4]).2.1.getD 0 0 =
      |[(2 : ℚ), 4].getD 0 0 - meanQ [2, 4]| ∧
    (get_residuals [2, 4]).2.2.getD 0 0 =
      ([(2 : ℚ), 4].getD 0 0 - meanQ [2, 4]) ^ 2 ∧
    (get_residuals [2, 4]).1.length = [(2 : ℚ), 4].length ∧
    (get_residuals [2, 4]).2.1.length = [(2 : ℚ), 4].length ∧
    (get_residuals [2, 4]).2.2.length = [(2 : ℚ), 4].length :=
  get_residuals_rowwise [2, 4] 0 (by decide)

end VolAnalysis
